import Mathlib

/-!
Verification of the hooks adapter described by `rbx-roact-hooks`.

The repository ships only the public type declarations (`src/index.d.ts`)
of a hooks adapter for Roact, together with its README.  The runtime that
those declarations describe (the per-instance hook slot store, the render
pass, dependency comparison and re-render scheduling) is not part of the
sources, so it is modelled here from the specification's data model
(spec section 3) and component design (spec section 4.1).  Type-level
entities (`BasicStateAction`, `Dispatch`, reducers, the props validation
result) are translated from `src/index.d.ts` directly.
-/

/-- Modelled from the spec: "A dependency array, when provided, is compared
element-wise by identity/equality to the prior render's array."  Shallow,
element-wise comparison of two dependency arrays. -/
def shallowEq {V : Type} [DecidableEq V] : List V → List V → Bool
  | [], [] => true
  | a :: as, b :: bs => a = b && shallowEq as bs
  | _, _ => false

theorem shallowEq_iff_eq {V : Type} [DecidableEq V] :
    ∀ xs ys : List V, shallowEq xs ys = true ↔ xs = ys := by
  intro xs
  induction xs with
  | nil => intro ys; cases ys <;> simp [shallowEq]
  | cons a as ih =>
    intro ys
    cases ys with
    | nil => simp [shallowEq]
    | cons b bs => simp [shallowEq, ih bs]

theorem shallowEq_refl {V : Type} [DecidableEq V] (xs : List V) :
    shallowEq xs xs = true := (shallowEq_iff_eq xs xs).mpr rfl

/-- Translated from `src/index.d.ts`:
`type BasicStateAction<S> = S | ((currentValue: S) => S)` — the argument
accepted by the dispatcher that `useState` returns: either a plain new
value or a function of the current value. -/
inductive BasicStateAction (S : Type) where
  | value : S → BasicStateAction S
  | update : (S → S) → BasicStateAction S

/-- Resolves a `BasicStateAction` against the current value: a plain value
replaces the state, a function is applied to the current value. -/
def applyBasicStateAction {S : Type} : BasicStateAction S → S → S
  | .value v, _ => v
  | .update f, s => f s

/-- Modelled from the spec: the hook runtime is absent from `src/` (only
type declarations exist), so a `useState` slot is modelled as the value
the next render will observe, plus the flag recording that a setter call
"schedules a re-render" (spec section 4.1). -/
structure StateSlot (S : Type) where
  current : S
  rerenderScheduled : Bool

/-- Modelled from the spec: "calling the setter schedules a re-render with
the updated value."  The dispatcher returned by `useState`: it resolves the
`BasicStateAction` against the current value, stores the result for the
next render, and schedules a re-render. -/
def setStateDispatch {S : Type} (a : BasicStateAction S) (sl : StateSlot S) : StateSlot S :=
  { current := applyBasicStateAction a sl.current, rerenderScheduled := true }

/-- A finite sequence of setter calls applied in order to a `useState`
slot, as they would happen between two renders. -/
def applySetCalls {S : Type} (calls : List (BasicStateAction S)) (sl : StateSlot S) : StateSlot S :=
  calls.foldl (fun sl a => setStateDispatch a sl) sl

/-- Modelled from the spec: "useReducer(reducer, initialState) returns
(state, dispatch); dispatch applies the reducer synchronously at next
render."  A reducer slot holds the current state and the actions
dispatched since the last render. -/
structure ReducerSlot (S A : Type) where
  state : S
  pending : List A

/-- Modelled from the spec: the dispatcher returned by `useReducer`
records the action to be applied at the next render. -/
def dispatchAction {S A : Type} (a : A) (sl : ReducerSlot S A) : ReducerSlot S A :=
  { sl with pending := sl.pending ++ [a] }

/-- Modelled from the spec: at the next render the pending actions are
applied, in dispatch order, through the reducer. -/
def renderReducer {S A : Type} (reducer : S → A → S) (sl : ReducerSlot S A) : ReducerSlot S A :=
  { state := sl.pending.foldl reducer sl.state, pending := [] }

theorem getLastD_cons {S : Type} (vs : List S) :
    ∀ v x : S, (v :: vs).getLast?.getD x = vs.getLast?.getD v := by
  induction vs with
  | nil => intro v x; simp
  | cons w ws ih =>
    intro v x
    rw [List.getLast?_cons_cons, ih w x, ih w v]

theorem applySetCalls_values_current {S : Type} (vs : List S) :
    ∀ sl : StateSlot S,
      (applySetCalls (vs.map BasicStateAction.value) sl).current = vs.getLast?.getD sl.current := by
  induction vs with
  | nil => intro sl; simp [applySetCalls]
  | cons v vs ih =>
    intro sl
    have h := ih (setStateDispatch (BasicStateAction.value v) sl)
    simp [applySetCalls, List.foldl_cons] at h ⊢
    rw [h, getLastD_cons vs v sl.current]
    rfl

theorem applySetCalls_scheduled {S : Type} (vs : List (BasicStateAction S)) :
    ∀ sl : StateSlot S, vs ≠ [] → (applySetCalls vs sl).rerenderScheduled = true := by
  induction vs with
  | nil => intro sl h; exact absurd rfl h
  | cons a vs ih =>
    intro sl _
    cases vs with
    | nil => rfl
    | cons b bs => exact ih _ (by simp)

/-- C1: for every state `S`, action `A` and reducer, dispatching `A` on a
`useReducer` slot holding `S` yields, at the next render, exactly
`reducer S A`; moreover dispatch composes, so a dispatch after any pending
queue applies the reducer to the state the queue produces.  Purity of the
reducer is automatic: Lean functions are pure. -/
theorem useReducer_dispatch_exact {S A : Type} (reducer : S → A → S) (s : S) (a : A) :
    (renderReducer reducer (dispatchAction a ⟨s, []⟩)).state = reducer s a ∧
    ∀ p : List A,
      (renderReducer reducer (dispatchAction a ⟨s, p⟩)).state
        = reducer (renderReducer reducer ⟨s, p⟩).state a := by
  constructor
  · rfl
  · intro p
    simp [renderReducer, dispatchAction, List.foldl_append]

/-- C2: for every finite sequence of setter calls, the next render observes
the value passed to the most recent call (last write wins; with no calls
the value is unchanged), and every setter call schedules a re-render. -/
theorem useState_last_write_wins {S : Type} (vs : List S) (sl : StateSlot S) :
    (applySetCalls (vs.map BasicStateAction.value) sl).current = vs.getLast?.getD sl.current ∧
    (∀ a : BasicStateAction S, ∀ st : StateSlot S, (setStateDispatch a st).rerenderScheduled = true) ∧
    (vs ≠ [] → (applySetCalls (vs.map BasicStateAction.value) sl).rerenderScheduled = true) := by
  refine ⟨applySetCalls_values_current vs sl, fun a st => rfl, fun h => ?_⟩
  exact applySetCalls_scheduled _ sl (by simpa using h)

/-- Closed witness for C2's hypothesis `vs ≠ []`: three setter calls on a
concrete slot; the next render observes the last value written. -/
theorem useState_last_write_wins_witness :
    (applySetCalls ([3, 7, 9].map BasicStateAction.value) (⟨0, false⟩ : StateSlot Nat)).current
      = [3, 7, 9].getLast?.getD 0 ∧
    (applySetCalls ([3, 7, 9].map BasicStateAction.value) (⟨0, false⟩ : StateSlot Nat)).rerenderScheduled
      = true := by
  have h := useState_last_write_wins [3, 7, 9] (⟨0, false⟩ : StateSlot Nat)
  exact ⟨h.1, h.2.2 (by decide)⟩

/-- C10: the dispatcher returned by `useState` accepts a `BasicStateAction`:
dispatching a plain value `v` makes the next render observe `v`, and
dispatching a function `f` makes the next render observe `f` applied to the
current state. -/
theorem useState_basic_state_action {S : Type} (v : S) (f : S → S) (sl : StateSlot S) :
    (setStateDispatch (BasicStateAction.value v) sl).current = v ∧
    (setStateDispatch (BasicStateAction.update f) sl).current = f sl.current := by
  exact ⟨rfl, rfl⟩

/-- Modelled from the spec: the hook runtime is absent from `src/`, so a
`useMemo`/`useCallback` slot is modelled from the data model of spec
section 3, a "memo record (value + last dependency array)".  `W` is the
type of the memoized value, `V` the type of the dependency-array elements. -/
structure MemoSlot (W : Type) (V : Type) where
  value : W
  deps : Option (List V)

/-- Modelled from the spec: "`useMemo` will only recalculate the inner
value when the dependencies have changed" and "absence of a dependency
array means always re-run."  One render of a `useMemo` call site: given the
compute function, the supplied dependency array (or `none` when omitted)
and the slot left by the previous render, it returns the updated slot and
whether the compute function was invoked this render. -/
def useMemoStep {W V : Type} [DecidableEq V] (compute : Unit → W)
    (deps : Option (List V)) (prev : MemoSlot W V) : MemoSlot W V × Bool :=
  match deps, prev.deps with
  | none, _ => (⟨compute (), none⟩, true)
  | some ds, none => (⟨compute (), some ds⟩, true)
  | some ds, some prevDs =>
    if shallowEq ds prevDs then (prev, false) else (⟨compute (), some ds⟩, true)

/-- Modelled from the spec: "Returns a memoized callback"; one render of a
`useCallback` call site, caching the supplied callback under the same
dependency-array regime as `useMemoStep`. -/
def useCallbackStep {W V : Type} [DecidableEq V] (cb : W)
    (deps : Option (List V)) (prev : MemoSlot W V) : MemoSlot W V × Bool :=
  match deps, prev.deps with
  | none, _ => (⟨cb, none⟩, true)
  | some ds, none => (⟨cb, some ds⟩, true)
  | some ds, some prevDs =>
    if shallowEq ds prevDs then (prev, false) else (⟨cb, some ds⟩, true)

/-- C3: between two consecutive renders, `useMemo` and `useCallback`
re-invoke their compute function iff the supplied dependency array differs
from the previous render's array under element-wise shallow comparison;
with shallow-equal arrays the previously stored slot (hence the previous
reference) is returned unchanged; with the dependency array omitted the
compute function runs on every render. -/
theorem useMemo_recompute_iff {W V : Type} [DecidableEq V]
    (compute : Unit → W) (cb : W) (w cw : W) (ds prevDs : List V) (d0 d1 : Option (List V)) :
    ((useMemoStep compute (some ds) (⟨w, some prevDs⟩ : MemoSlot W V)).2 = true ↔ ds ≠ prevDs) ∧
    (useMemoStep compute (some prevDs) (⟨w, some prevDs⟩ : MemoSlot W V)).1 = ⟨w, some prevDs⟩ ∧
    (useMemoStep compute none (⟨w, d0⟩ : MemoSlot W V)).2 = true ∧
    ((useCallbackStep cb (some ds) (⟨cw, some prevDs⟩ : MemoSlot W V)).2 = true ↔ ds ≠ prevDs) ∧
    (useCallbackStep cb (some prevDs) (⟨cw, some prevDs⟩ : MemoSlot W V)).1 = ⟨cw, some prevDs⟩ ∧
    (useCallbackStep cb none (⟨cw, d1⟩ : MemoSlot W V)).2 = true := by
  refine ⟨?_, ?_, ?_, ?_, ?_, ?_⟩
  · simp only [useMemoStep]
    by_cases h : ds = prevDs
    · subst h; simp [shallowEq_refl]
    · have : shallowEq ds prevDs = false := by
        cases hb : shallowEq ds prevDs
        · rfl
        · exact absurd ((shallowEq_iff_eq ds prevDs).mp hb) h
      simp [this, h]
  · simp [useMemoStep, shallowEq_refl]
  · cases d0 <;> rfl
  · simp only [useCallbackStep]
    by_cases h : ds = prevDs
    · subst h; simp [shallowEq_refl]
    · have : shallowEq ds prevDs = false := by
        cases hb : shallowEq ds prevDs
        · rfl
        · exact absurd ((shallowEq_iff_eq ds prevDs).mp hb) h
      simp [this, h]
  · simp [useCallbackStep, shallowEq_refl]
  · cases d1 <;> rfl

/-- C9: `useCallback(callback, dependencies)` behaves identically to
`useMemo(() => callback, dependencies)`: on every slot and every
dependency-array input (the omitted case included) the two produce the same
updated slot and invoke/skip recomputation under exactly the same
conditions, so along any sequence of renders they agree step by step. -/
theorem useCallback_refines_useMemo {W V : Type} [DecidableEq V]
    (cb : W) (deps : Option (List V)) (prev : MemoSlot W V) :
    useCallbackStep cb deps prev = useMemoStep (fun _ => cb) deps prev := by
  cases deps with
  | none => rfl
  | some ds =>
    cases h : prev.deps with
    | none => simp [useCallbackStep, useMemoStep, h]
    | some prevDs => simp [useCallbackStep, useMemoStep, h]

/-- Observable events of the effect lifecycle: the cleanup returned by the
effect body of render `n`, and the effect body of render `n`. -/
inductive EffectEvent where
  | cleanupRun : Nat → EffectEvent
  | effectRun : Nat → EffectEvent
deriving DecidableEq

/-- Modelled from the spec: the hook runtime is absent from `src/`, so a
`useEffect` slot is modelled from the data model of spec section 3, an
"effect record (callback + last dependency array + cleanup)".  The pending
cleanup is identified by the index of the render whose effect body
returned it (`none` when no cleanup is pending). -/
structure EffectSlot (V : Type) where
  deps : Option (List V)
  cleanup : Option Nat

/-- Modelled from the spec: "absence of a dependency array means always
re-run"; otherwise the supplied array is compared by shallow, element-wise
comparison to the array stored at the previous run. -/
def effectDepsChanged {V : Type} [DecidableEq V] :
    Option (List V) → Option (List V) → Bool
  | none, _ => true
  | some _, none => true
  | some newDs, some oldDs => !(shallowEq newDs oldDs)

/-- Modelled from the spec: "`useEffect` cleanup from render N runs before
the effect body of render N+1 when dependencies changed."  One render of a
`useEffect` call site at render index `n`: when the dependencies changed
(or the array is absent) the pending cleanup, if any, is invoked first and
then the effect body runs, returning a new cleanup when the body provides
one (`hasCleanup`); otherwise nothing runs.  The returned list is the
sequence of events this render emits, in execution order. -/
def effectRenderStep {V : Type} [DecidableEq V] (n : Nat) (newDeps : Option (List V))
    (hasCleanup : Bool) (sl : EffectSlot V) : EffectSlot V × List EffectEvent :=
  if effectDepsChanged newDeps sl.deps then
    let pre : List EffectEvent :=
      match sl.cleanup with
      | some m => [EffectEvent.cleanupRun m]
      | none => []
    ({ deps := newDeps, cleanup := if hasCleanup then some n else none },
      pre ++ [EffectEvent.effectRun n])
  else (sl, [])

/-- Modelled from the spec: "on unmount the last cleanup is always
invoked."  Unmounting the instance invokes the pending cleanup, if any. -/
def effectUnmount {V : Type} (sl : EffectSlot V) : List EffectEvent :=
  match sl.cleanup with
  | some m => [EffectEvent.cleanupRun m]
  | none => []

/-- C4: when the dependencies changed (or no dependency array was given)
between render `n` and render `n+1`, the cleanup returned by render `n`'s
effect body runs before render `n+1`'s effect body (the emitted event
sequence is exactly cleanup-of-`n` followed by effect-of-`n+1`); and on
unmount the last returned cleanup runs exactly once (the unmount event
sequence is exactly one invocation of it). -/
theorem useEffect_cleanup_order {V : Type} [DecidableEq V]
    (n m : Nat) (newDeps oldDeps unmountDeps : Option (List V)) (hasCleanup : Bool)
    (h : effectDepsChanged newDeps oldDeps = true) :
    (effectRenderStep (n + 1) newDeps hasCleanup (⟨oldDeps, some n⟩ : EffectSlot V)).2
      = [EffectEvent.cleanupRun n, EffectEvent.effectRun (n + 1)] ∧
    effectUnmount (⟨unmountDeps, some m⟩ : EffectSlot V) = [EffectEvent.cleanupRun m] ∧
    (effectUnmount (⟨unmountDeps, some m⟩ : EffectSlot V)).count (EffectEvent.cleanupRun m) = 1 := by
  refine ⟨?_, rfl, by simp [effectUnmount]⟩
  simp [effectRenderStep, h]

/-- Closed witness for C4's hypothesis: a concrete render at index 1 whose
dependency array changed (`[2]` versus the stored `[5]`); the cleanup of
render 0 is observed strictly before the effect body of render 1, and a
concrete unmount runs that cleanup exactly once. -/
theorem useEffect_cleanup_order_witness :
    (effectRenderStep 1 (some [2]) true (⟨some [5], some 0⟩ : EffectSlot Nat)).2
      = [EffectEvent.cleanupRun 0, EffectEvent.effectRun 1] ∧
    effectUnmount (⟨some [2], some 4⟩ : EffectSlot Nat) = [EffectEvent.cleanupRun 4] ∧
    (effectUnmount (⟨some [2], some 4⟩ : EffectSlot Nat)).count (EffectEvent.cleanupRun 4) = 1 := by
  exact useEffect_cleanup_order 0 4 (some [2]) (some [5]) (some [2]) true (by decide)

/-- The kind of a hook call site, used to compare call sequences between
renders (representative kinds suffice for the order-stability contract). -/
inductive HookKind where
  | stateKind
  | valueKind
  | memoKind
deriving DecidableEq

/-- One hook invocation in a component's render body: its arguments for
this render.  `hMemo` computes from the props, standing for a compute
closure over the render's inputs. -/
inductive HookCall (V : Type) where
  | hState : V → HookCall V
  | hValue : V → HookCall V
  | hMemo : (V → V) → Option (List V) → HookCall V

/-- Modelled from the spec: "an ordered sequence of hook slots, one per
hook invocation in call order across renders", "each slot holds a tagged
variant" (spec section 3). -/
inductive Slot (V : Type) where
  | stateSlot : V → Slot V
  | valueSlot : V → Slot V
  | memoSlot : V → Option (List V) → Slot V

def HookCall.kind {V : Type} : HookCall V → HookKind
  | .hState _ => .stateKind
  | .hValue _ => .valueKind
  | .hMemo _ _ => .memoKind

def Slot.kind {V : Type} : Slot V → HookKind
  | .stateSlot _ => .stateKind
  | .valueSlot _ => .valueKind
  | .memoSlot _ _ => .memoKind

/-- Modelled from the spec: slots are "mutated on subsequent renders in
place"; replaying one hook call against the slot the previous render left
at the same call index.  A call whose kind differs from the recorded slot
is the hook-order programmer error and surfaces as a diagnostic. -/
def updateHook {V : Type} [DecidableEq V] (props : V) :
    HookCall V → Slot V → Except String (V × Slot V)
  | .hState _, .stateSlot v => .ok (v, .stateSlot v)
  | .hValue _, .valueSlot v => .ok (v, .valueSlot v)
  | .hMemo f deps, .memoSlot v prevDeps =>
    match deps, prevDeps with
    | none, _ => .ok (f props, .memoSlot (f props) none)
    | some ds, none => .ok (f props, .memoSlot (f props) (some ds))
    | some ds, some pds =>
      if shallowEq ds pds then .ok (v, .memoSlot v (some pds))
      else .ok (f props, .memoSlot (f props) (some ds))
  | _, _ => .error "hook call does not match the slot recorded by the previous render"

/-- Modelled from the spec: "associate a stable, ordered list of hook
records with one component instance, and replay it deterministically on
every re-render" (spec section 4.1).  A re-render pass: the render body's
hook calls are replayed, in order, against the instance's slot store;
any order or count mismatch is a loud diagnostic, never silent
corruption.  Returns the values the hooks produced and the updated store. -/
def renderHooks {V : Type} [DecidableEq V] (props : V) :
    List (HookCall V) → List (Slot V) → Except String (List V × List (Slot V))
  | [], [] => .ok ([], [])
  | [], _ :: _ => .error "hook count mismatch: fewer hook calls than the previous render"
  | _ :: _, [] => .error "hook count mismatch: more hook calls than the previous render"
  | c :: cs, s :: ss =>
    match updateHook props c s with
    | .error e => .error e
    | .ok (v, s') =>
      match renderHooks props cs ss with
      | .error e => .error e
      | .ok (vs, ss') => .ok (v :: vs, s' :: ss')

theorem updateHook_ok_of_kind_eq {V : Type} [DecidableEq V] (props : V) :
    ∀ (c : HookCall V) (s : Slot V), c.kind = s.kind →
      ∃ v s', updateHook props c s = .ok (v, s') := by
  intro c s h
  cases c with
  | hState d =>
    cases s with
    | stateSlot v => exact ⟨v, .stateSlot v, rfl⟩
    | valueSlot v => simp [HookCall.kind, Slot.kind] at h
    | memoSlot v pd => simp [HookCall.kind, Slot.kind] at h
  | hValue d =>
    cases s with
    | stateSlot v => simp [HookCall.kind, Slot.kind] at h
    | valueSlot v => exact ⟨v, .valueSlot v, rfl⟩
    | memoSlot v pd => simp [HookCall.kind, Slot.kind] at h
  | hMemo f deps =>
    cases s with
    | stateSlot v => simp [HookCall.kind, Slot.kind] at h
    | valueSlot v => simp [HookCall.kind, Slot.kind] at h
    | memoSlot v pd =>
      cases deps with
      | none => exact ⟨f props, .memoSlot (f props) none, rfl⟩
      | some ds =>
        cases pd with
        | none => exact ⟨f props, .memoSlot (f props) (some ds), rfl⟩
        | some pds =>
          by_cases hb : shallowEq ds pds = true
          · exact ⟨v, .memoSlot v (some pds), by simp [updateHook, hb]⟩
          · refine ⟨f props, .memoSlot (f props) (some ds), ?_⟩
            simp only [updateHook]
            rw [if_neg hb]

theorem updateHook_error_of_kind_ne {V : Type} [DecidableEq V] (props : V) :
    ∀ (c : HookCall V) (s : Slot V), c.kind ≠ s.kind →
      ∃ msg, updateHook props c s = .error msg := by
  intro c s h
  cases c <;> cases s <;>
    first
      | exact absurd rfl h
      | exact ⟨_, rfl⟩

theorem renderHooks_ok_of_kinds {V : Type} [DecidableEq V] (props : V) :
    ∀ (prog : List (HookCall V)) (store : List (Slot V)),
      prog.map HookCall.kind = store.map Slot.kind →
      ∃ r, renderHooks props prog store = .ok r := by
  intro prog
  induction prog with
  | nil =>
    intro store h
    cases store with
    | nil => exact ⟨([], []), rfl⟩
    | cons s ss => simp at h
  | cons c cs ih =>
    intro store h
    cases store with
    | nil => simp at h
    | cons s ss =>
      simp only [List.map_cons, List.cons.injEq] at h
      obtain ⟨v, s', hu⟩ := updateHook_ok_of_kind_eq props c s h.1
      obtain ⟨⟨vs, ss'⟩, hr⟩ := ih ss h.2
      exact ⟨(v :: vs, s' :: ss'), by simp [renderHooks, hu, hr]⟩

theorem renderHooks_error_of_kinds_ne {V : Type} [DecidableEq V] (props : V) :
    ∀ (prog : List (HookCall V)) (store : List (Slot V)),
      prog.map HookCall.kind ≠ store.map Slot.kind →
      ∃ msg, renderHooks props prog store = .error msg := by
  intro prog
  induction prog with
  | nil =>
    intro store h
    cases store with
    | nil => exact absurd rfl h
    | cons s ss => exact ⟨_, rfl⟩
  | cons c cs ih =>
    intro store h
    cases store with
    | nil => exact ⟨_, rfl⟩
    | cons s ss =>
      by_cases hk : c.kind = s.kind
      · have htl : cs.map HookCall.kind ≠ ss.map Slot.kind := by
          intro he
          exact h (by simp [hk, he])
        obtain ⟨v, s', hu⟩ := updateHook_ok_of_kind_eq props c s hk
        obtain ⟨msg, hmsg⟩ := ih ss htl
        exact ⟨msg, by simp [renderHooks, hu, hmsg]⟩
      · obtain ⟨msg, hmsg⟩ := updateHook_error_of_kind_ne props c s hk
        exact ⟨msg, by simp [renderHooks, hmsg]⟩

/-- C5: a re-render raises the hook-order diagnostic exactly when the
sequence of hook call kinds of this render (order or count) differs from
the sequence recorded in the instance's slot store by the previous render;
identical sequences never raise it (the render pass succeeds), so
corruption is never silent. -/
theorem hook_order_mismatch_detected {V : Type} [DecidableEq V] (props : V)
    (prog : List (HookCall V)) (store : List (Slot V)) :
    (∃ msg, renderHooks props prog store = .error msg) ↔
      prog.map HookCall.kind ≠ store.map Slot.kind := by
  constructor
  · rintro ⟨msg, hmsg⟩ hk
    obtain ⟨r, hr⟩ := renderHooks_ok_of_kinds props prog store hk
    rw [hr] at hmsg
    exact Except.noConfusion hmsg
  · intro hk
    exact renderHooks_error_of_kinds_ne props prog store hk

theorem updateHook_replay {V : Type} [DecidableEq V] (props : V) :
    ∀ (c : HookCall V) (s s' : Slot V) (v : V),
      updateHook props c s = .ok (v, s') → updateHook props c s' = .ok (v, s') := by
  intro c s s' v h
  cases c with
  | hState d =>
    cases s with
    | stateSlot w =>
      simp only [updateHook, Except.ok.injEq, Prod.mk.injEq] at h
      obtain ⟨hv, hs⟩ := h
      subst hv; subst hs
      rfl
    | valueSlot w => exact absurd h (by simp [updateHook])
    | memoSlot w pd => exact absurd h (by simp [updateHook])
  | hValue d =>
    cases s with
    | stateSlot w => exact absurd h (by simp [updateHook])
    | valueSlot w =>
      simp only [updateHook, Except.ok.injEq, Prod.mk.injEq] at h
      obtain ⟨hv, hs⟩ := h
      subst hv; subst hs
      rfl
    | memoSlot w pd => exact absurd h (by simp [updateHook])
  | hMemo f deps =>
    cases s with
    | stateSlot w => exact absurd h (by simp [updateHook])
    | valueSlot w => exact absurd h (by simp [updateHook])
    | memoSlot w pd =>
      cases deps with
      | none =>
        simp only [updateHook, Except.ok.injEq, Prod.mk.injEq] at h
        obtain ⟨hv, hs⟩ := h
        subst hv; subst hs
        rfl
      | some ds =>
        cases pd with
        | none =>
          simp only [updateHook, Except.ok.injEq, Prod.mk.injEq] at h
          obtain ⟨hv, hs⟩ := h
          subst hv; subst hs
          simp [updateHook, shallowEq_refl]
        | some pds =>
          by_cases hb : shallowEq ds pds = true
          · rw [show updateHook props (.hMemo f (some ds)) (.memoSlot w (some pds))
                = if shallowEq ds pds then .ok (w, .memoSlot w (some pds))
                  else .ok (f props, .memoSlot (f props) (some ds)) from rfl,
              if_pos hb] at h
            simp only [Except.ok.injEq, Prod.mk.injEq] at h
            obtain ⟨hv, hs⟩ := h
            subst hv; subst hs
            rw [show updateHook props (.hMemo f (some ds)) (.memoSlot w (some pds))
                = if shallowEq ds pds then .ok (w, .memoSlot w (some pds))
                  else .ok (f props, .memoSlot (f props) (some ds)) from rfl,
              if_pos hb]
          · rw [show updateHook props (.hMemo f (some ds)) (.memoSlot w (some pds))
                = if shallowEq ds pds then .ok (w, .memoSlot w (some pds))
                  else .ok (f props, .memoSlot (f props) (some ds)) from rfl,
              if_neg hb] at h
            simp only [Except.ok.injEq, Prod.mk.injEq] at h
            obtain ⟨hv, hs⟩ := h
            subst hv; subst hs
            simp [updateHook, shallowEq_refl]

/-- C8: rendering is deterministic: the render pass is a function of the
props and the slot store alone, and replaying the ordered hook record list
is stable — a render pass that succeeded from store `store`, producing
output `out` and store `store'`, reproduces exactly the same output `out`
and the same store `store'` when re-run, so any two render passes from the
same props and the same slot-store contents agree on output and final
store. -/
theorem render_pass_deterministic_replay {V : Type} [DecidableEq V] (props : V) :
    ∀ (prog : List (HookCall V)) (store store' : List (Slot V)) (out : List V),
      renderHooks props prog store = .ok (out, store') →
      renderHooks props prog store' = .ok (out, store') := by
  intro prog
  induction prog with
  | nil =>
    intro store store' out h
    cases store with
    | nil =>
      simp only [renderHooks, Except.ok.injEq, Prod.mk.injEq] at h
      obtain ⟨ho, hs⟩ := h
      subst ho; subst hs
      rfl
    | cons s ss => exact absurd h (by simp [renderHooks])
  | cons c cs ih =>
    intro store store' out h
    cases store with
    | nil => exact absurd h (by simp [renderHooks])
    | cons s ss =>
      simp only [renderHooks] at h
      cases hu : updateHook props c s with
      | error e => rw [hu] at h; exact absurd h (by simp)
      | ok p =>
        obtain ⟨v, s1⟩ := p
        rw [hu] at h
        cases hr : renderHooks props cs ss with
        | error e => rw [hr] at h; exact absurd h (by simp)
        | ok r =>
          obtain ⟨vs, ss1⟩ := r
          rw [hr] at h
          simp only [Except.ok.injEq, Prod.mk.injEq] at h
          obtain ⟨ho, hs⟩ := h
          subst ho; subst hs
          have hu' := updateHook_replay props c s s1 v hu
          have hr' := ih ss ss1 vs hr
          simp [renderHooks, hu', hr']

/-- Closed witness for C8's hypothesis: a concrete successful render pass
over a state slot and a memoized slot whose dependency array was freshly
supplied (so the pass rewrites the store); re-running the pass from the
store it produced reproduces the same output and the same store. -/
theorem render_pass_deterministic_replay_witness :
    renderHooks 10 [HookCall.hState 0, HookCall.hMemo (fun p => p + 1) (some [4])]
        [Slot.stateSlot 7, Slot.memoSlot 3 none]
      = .ok ([7, 11], [Slot.stateSlot 7, Slot.memoSlot 11 (some [4])]) ∧
    renderHooks 10 [HookCall.hState 0, HookCall.hMemo (fun p => p + 1) (some [4])]
        [Slot.stateSlot 7, Slot.memoSlot 11 (some [4])]
      = .ok ([7, 11], [Slot.stateSlot 7, Slot.memoSlot 11 (some [4])]) := by
  have hfirst :
      renderHooks 10 [HookCall.hState 0, HookCall.hMemo (fun p => p + 1) (some [4])]
          [Slot.stateSlot 7, Slot.memoSlot 3 none]
        = .ok ([7, 11], [Slot.stateSlot 7, Slot.memoSlot 11 (some [4])]) := by
    simp [renderHooks, updateHook, shallowEq]
  exact ⟨hfirst,
    render_pass_deterministic_replay 10
      [HookCall.hState 0, HookCall.hMemo (fun p => p + 1) (some [4])]
      [Slot.stateSlot 7, Slot.memoSlot 3 none]
      [Slot.stateSlot 7, Slot.memoSlot 11 (some [4])] [7, 11] hfirst⟩

/-- Modelled from the spec: a component instance's state — its ordered
slot store and the re-render flag that setter dispatchers raise.  A
`useValue` container is identified by its slot index in the store. -/
structure ValueInstance (V : Type) where
  slots : List (Slot V)
  rerenderScheduled : Bool

/-- Mutating a `useValue` container in place: only the `value` field of a
value slot is replaced; any other slot variant is left untouched. -/
def mutateValueSlot {V : Type} (nv : V) : Slot V → Slot V
  | .valueSlot _ => .valueSlot nv
  | s => s

def setSlotValue {V : Type} (nv : V) : Nat → List (Slot V) → List (Slot V)
  | _, [] => []
  | 0, s :: ss => mutateValueSlot nv s :: ss
  | n + 1, s :: ss => s :: setSlotValue nv n ss

/-- Modelled from the spec: "`useValue` returns a mutable, render-stable
container not tied to re-render"; writing through the container mutates
its slot's `value` field in place and nothing else — in particular it
never raises the re-render flag. -/
def setValueContainer {V : Type} (i : Nat) (nv : V) (inst : ValueInstance V) : ValueInstance V :=
  { slots := setSlotValue nv i inst.slots, rerenderScheduled := inst.rerenderScheduled }

theorem setSlotValue_get_ne {V : Type} (nv : V) :
    ∀ (slots : List (Slot V)) (i j : Nat), j ≠ i →
      (setSlotValue nv i slots).get? j = slots.get? j := by
  intro slots
  induction slots with
  | nil => intro i j _; cases i <;> rfl
  | cons s ss ih =>
    intro i j hne
    cases i with
    | zero =>
      cases j with
      | zero => exact absurd rfl hne
      | succ j => rfl
    | succ i =>
      cases j with
      | zero => rfl
      | succ j => exact ih i j (fun he => hne (by rw [he]))

/-- C6: `useValue` is render-stable — a re-render returns the stored
container unchanged (its content and its slot), ignoring the freshly
supplied default; and writing through the container mutates only that
container's slot: every other slot index reads the same, the store keeps
its length, and the re-render flag is never raised by the write. -/
theorem useValue_stable_container {V : Type} [DecidableEq V]
    (props dflt v nv : V) (i j : Nat) (inst : ValueInstance V) (h : j ≠ i) :
    updateHook props (HookCall.hValue dflt) (Slot.valueSlot v)
      = .ok (v, Slot.valueSlot v) ∧
    (setValueContainer i nv inst).slots.get? j = inst.slots.get? j ∧
    (setValueContainer i nv inst).slots.length = inst.slots.length ∧
    (setValueContainer i nv inst).rerenderScheduled = inst.rerenderScheduled := by
  refine ⟨rfl, setSlotValue_get_ne nv inst.slots i j h, ?_, rfl⟩
  show (setSlotValue nv i inst.slots).length = inst.slots.length
  clear h
  induction inst.slots generalizing i with
  | nil => cases i <;> rfl
  | cons s ss ih =>
    cases i with
    | zero => rfl
    | succ i =>
      show (s :: setSlotValue nv i ss).length = (s :: ss).length
      simp [ih i]

/-- Closed witness for C6's hypothesis `j ≠ i`: a concrete two-slot
instance with the re-render flag down; writing `9` through the container
at index 1 leaves slot 0, the store length and the flag unchanged. -/
theorem useValue_stable_container_witness :
    updateHook 0 (HookCall.hValue 5) (Slot.valueSlot 2)
      = .ok (2, Slot.valueSlot 2) ∧
    (setValueContainer 1 9 (⟨[Slot.stateSlot 4, Slot.valueSlot 2], false⟩ : ValueInstance Nat)).slots.get? 0
      = ([Slot.stateSlot 4, Slot.valueSlot 2] : List (Slot Nat)).get? 0 ∧
    (setValueContainer 1 9 (⟨[Slot.stateSlot 4, Slot.valueSlot 2], false⟩ : ValueInstance Nat)).slots.length
      = ([Slot.stateSlot 4, Slot.valueSlot 2] : List (Slot Nat)).length ∧
    (setValueContainer 1 9 (⟨[Slot.stateSlot 4, Slot.valueSlot 2], false⟩ : ValueInstance Nat)).rerenderScheduled
      = false := by
  exact useValue_stable_container 0 5 2 9 1 0
    (⟨[Slot.stateSlot 4, Slot.valueSlot 2], false⟩ : ValueInstance Nat) (by decide)

/-- Translated from `src/index.d.ts`: the result of the optional
`validateProps` callback — either a plain boolean or
`PropsValidationWithMessage = LuaTuple<[boolean, string]>`, a verdict
paired with a message. -/
inductive PropsValidation where
  | plain : Bool → PropsValidation
  | withMessage : Bool → String → PropsValidation

/-- The verdict carried by a props validation result. -/
def validationOk : PropsValidation → Bool
  | .plain ok => ok
  | .withMessage ok _ => ok

/-- Modelled from the spec: "props failing optional `validateProps`
(adapter should refuse to render and report the provided message)";
mounting a hooked component: when a validator is supplied and rejects the
props, the adapter refuses to render and reports, otherwise the render
function runs on the props. -/
def mountComponent {P O : Type} (validate : Option (P → PropsValidation))
    (render : P → O) (props : P) : Except String O :=
  match validate with
  | none => .ok (render props)
  | some check =>
    match check props with
    | .plain true => .ok (render props)
    | .plain false => .error "props validation failed"
    | .withMessage true _ => .ok (render props)
    | .withMessage false msg => .error msg

/-- C7: when `validateProps` fails on the props with a message, the
adapter does not render the component and reports exactly that message;
when it succeeds (any success shape), or when no validator was supplied,
rendering proceeds and produces the render function's output. -/
theorem validate_props_gates_render {P O : Type}
    (check ok : P → PropsValidation) (render : P → O) (props : P) (msg : String)
    (hfail : check props = .withMessage false msg)
    (hok : validationOk (ok props) = true) :
    mountComponent (some check) render props = .error msg ∧
    mountComponent (some ok) render props = .ok (render props) ∧
    mountComponent none render props = .ok (render props) := by
  refine ⟨?_, ?_, rfl⟩
  · simp [mountComponent, hfail]
  · cases hcase : ok props with
    | plain b =>
      cases b with
      | true => simp [mountComponent, hcase]
      | false => rw [hcase] at hok; simp [validationOk] at hok
    | withMessage b m =>
      cases b with
      | true => simp [mountComponent, hcase]
      | false => rw [hcase] at hok; simp [validationOk] at hok

/-- Closed witness for C7's hypotheses: a concrete validator rejecting the
props `3` with the message "count must be even" (so the adapter refuses to
render and reports it), and a concrete accepting validator (so rendering
proceeds); without a validator rendering also proceeds. -/
theorem validate_props_gates_render_witness :
    mountComponent (some (fun _ : Nat => PropsValidation.withMessage false "count must be even"))
        (fun p : Nat => p + 1) 3 = .error "count must be even" ∧
    mountComponent (some (fun _ : Nat => PropsValidation.plain true))
        (fun p : Nat => p + 1) 3 = .ok 4 ∧
    mountComponent (none : Option (Nat → PropsValidation)) (fun p : Nat => p + 1) 3 = .ok 4 := by
  exact validate_props_gates_render
    (fun _ : Nat => PropsValidation.withMessage false "count must be even")
    (fun _ : Nat => PropsValidation.plain true)
    (fun p : Nat => p + 1) 3 "count must be even" rfl rfl
